import Mathlib

/-!
Verification of the captain-nemo Nautilus extension (captain_nemo.py)
against its natural-language specification.

The widget tree of the host application is embedded as an inductive type:
a widget has an internal name, class flags (container, menu item, paned,
tree view — standing for the `isinstance` checks the Python code performs),
an ordered list of children and an optional submenu.  Python generators are
embedded as functions producing the full (finite) list of yielded values;
consumer-driven `skip_children` calls are embedded as a policy function
saying, for each yielded widget, whether the consumer requests the skip
right after receiving it.  Code that can raise is embedded in `Except`.
-/

/-- A widget of the host's UI tree.  Fields mirror the attributes the
extension reads: `get_name`, `isinstance(_, Gtk.Container)` plus
`get_children`, `isinstance(_, Gtk.MenuItem)` plus `get_submenu`, and
`isinstance(_, Gtk.Paned)`. -/
inductive Widget where
  | mk (name : String) (isContainer : Bool) (isMenuItem : Bool) (isPaned : Bool)
       (children : List Widget) (submenu : Option Widget) : Widget

-- Decidable equality, by hand because `Widget` is a nested inductive.
mutual

def decEqW (a b : Widget) : Decidable (a = b) :=
  match a, b with
  | .mk n1 c1 m1 p1 cs1 s1, .mk n2 c2 m2 p2 cs2 s2 =>
    if h : n1 = n2 ∧ c1 = c2 ∧ m1 = m2 ∧ p1 = p2 then
      match decEqL cs1 cs2, decEqO s1 s2 with
      | isTrue hcs, isTrue hs => isTrue (by
          obtain ⟨e1, e2, e3, e4⟩ := h
          rw [e1, e2, e3, e4, hcs, hs])
      | isFalse hcs, _ => isFalse (fun e => by cases e; exact hcs rfl)
      | _, isFalse hs => isFalse (fun e => by cases e; exact hs rfl)
    else
      isFalse (fun e => by cases e; exact h ⟨rfl, rfl, rfl, rfl⟩)

def decEqL (a b : List Widget) : Decidable (a = b) :=
  match a, b with
  | [], [] => isTrue rfl
  | [], _ :: _ => isFalse (fun e => by cases e)
  | _ :: _, [] => isFalse (fun e => by cases e)
  | x :: xs, y :: ys =>
    match decEqW x y, decEqL xs ys with
    | isTrue h1, isTrue h2 => isTrue (by rw [h1, h2])
    | isFalse h1, _ => isFalse (fun e => by cases e; exact h1 rfl)
    | _, isFalse h2 => isFalse (fun e => by cases e; exact h2 rfl)

def decEqO (a b : Option Widget) : Decidable (a = b) :=
  match a, b with
  | none, none => isTrue rfl
  | none, some _ => isFalse (fun e => by cases e)
  | some _, none => isFalse (fun e => by cases e)
  | some x, some y =>
    match decEqW x y with
    | isTrue h1 => isTrue (by rw [h1])
    | isFalse h1 => isFalse (fun e => by cases e; exact h1 rfl)

end

instance : DecidableEq Widget := decEqW

def Widget.name : Widget → String
  | .mk n _ _ _ _ _ => n

def Widget.isContainer : Widget → Bool
  | .mk _ c _ _ _ _ => c

def Widget.isMenuItem : Widget → Bool
  | .mk _ _ m _ _ _ => m

def Widget.isPaned : Widget → Bool
  | .mk _ _ _ p _ _ => p

def Widget.children : Widget → List Widget
  | .mk _ _ _ _ cs _ => cs

def Widget.submenu : Widget → Option Widget
  | .mk _ _ _ _ _ s => s

-- `walk._walk` (captain_nemo.py lines 64-78), embedded with an explicit
-- skip policy: `skip w = true` means the consumer calls `skip_children()`
-- right after the generator yields `w`, so upon resumption the generator
-- drops the descent into `w`'s children and submenu.  `vs` is the
-- `visit_submenu` flag of the `walk` constructor.  `walkW` walks one widget,
-- `walkL` the `for child in widget.get_children()` loop, `walkO` the
-- `if widget == None: return` guard (also used for `get_submenu()`).
mutual

def walkW (vs : Bool) (skip : Widget → Bool) : Widget → List Widget
  | .mk n c m p cs sub =>
    Widget.mk n c m p cs sub ::
      (if skip (Widget.mk n c m p cs sub) then []
       else
         (if c then walkL vs skip cs else []) ++
         (if vs && m then walkO vs skip sub else []))

def walkL (vs : Bool) (skip : Widget → Bool) : List Widget → List Widget
  | [] => []
  | w :: ws => walkW vs skip w ++ walkL vs skip ws

def walkO (vs : Bool) (skip : Widget → Bool) : Option Widget → List Widget
  | none => []
  | some w => walkW vs skip w

end

/-- The full iteration of `walk(top, vs)` when the consumer never calls
`skip_children`. -/
def walkAll (vs : Bool) (w : Widget) : List Widget :=
  walkW vs (fun _ => false) w

/-- The full iteration of `walk(top, vs)` when the consumer calls
`skip_children()` exactly when the widget just yielded is `N`. -/
def walkSkipOne (vs : Bool) (N : Widget) (w : Widget) : List Widget :=
  walkW vs (fun z => decide (z = N)) w

-- All widget objects hanging off `w` in the host's heap (children and
-- submenu included unconditionally).  Distinctness of this list models the
-- fact that distinct positions of the host tree are distinct Python
-- objects.
mutual

def nodesW : Widget → List Widget
  | .mk n c m p cs sub => Widget.mk n c m p cs sub :: (nodesL cs ++ nodesO sub)

def nodesL : List Widget → List Widget
  | [] => []
  | w :: ws => nodesW w ++ nodesL ws

def nodesO : Option Widget → List Widget
  | none => []
  | some w => nodesW w

end

/-- Reachability by the traversal relation of `walk`: from a widget to
itself, into a child when the widget is a container, and into the submenu
when the visit-submenu flag is set and the widget is a menu item. -/
inductive Reaches (vs : Bool) : Widget → Widget → Prop where
  | refl (w : Widget) : Reaches vs w w
  | child {w c x : Widget} : w.isContainer = true → c ∈ w.children →
      Reaches vs c x → Reaches vs w x
  | sub {w s x : Widget} : (vs && w.isMenuItem) = true → w.submenu = some s →
      Reaches vs s x → Reaches vs w x

/-- Reachability avoiding descent below `N`: the paths actually followed by
the walk when the consumer skips the children of `N`. -/
inductive ReachesP (vs : Bool) (N : Widget) : Widget → Widget → Prop where
  | refl (w : Widget) : ReachesP vs N w w
  | child {w c x : Widget} : w ≠ N → w.isContainer = true → c ∈ w.children →
      ReachesP vs N c x → ReachesP vs N w x
  | sub {w s x : Widget} : w ≠ N → (vs && w.isMenuItem) = true → w.submenu = some s →
      ReachesP vs N s x → ReachesP vs N w x

/-! Embedding of `WindowAgent.__init__`'s widget discovery (lines 151-210).

The loop `for w in walker: ...` over `walk(window, False)` needs the parent
chain of each yielded widget, because the `NautilusToolbar` branch climbs
`get_parent()` until a `Gtk.Paned` is found.  `walkCtxW` is the same walk
as `walkW` but yields each widget together with its list of ancestors
(nearest first); climbing past the root (where `get_parent()` returns
`None` and the next `.get_parent()` raises `AttributeError`) is the
`.error` case of `climbToPaned`. -/

mutual

def walkCtxW (vs : Bool) (skip : Widget → Bool) (anc : List Widget) :
    Widget → List (Widget × List Widget)
  | .mk n c m p cs sub =>
    (Widget.mk n c m p cs sub, anc) ::
      (if skip (Widget.mk n c m p cs sub) then []
       else
         (if c then walkCtxL vs skip (Widget.mk n c m p cs sub :: anc) cs else []) ++
         (if vs && m then walkCtxO vs skip (Widget.mk n c m p cs sub :: anc) sub else []))

def walkCtxL (vs : Bool) (skip : Widget → Bool) (anc : List Widget) :
    List Widget → List (Widget × List Widget)
  | [] => []
  | w :: ws => walkCtxW vs skip anc w ++ walkCtxL vs skip anc ws

def walkCtxO (vs : Bool) (skip : Widget → Bool) (anc : List Widget) :
    Option Widget → List (Widget × List Widget)
  | none => []
  | some w => walkCtxW vs skip anc w

end

/-- The skip policy of the discovery loop: `walker.skip_children()` is
called on the `NautilusToolbar` and `MenuBar` landmarks (lines 165, 168). -/
def skipLandmarks (w : Widget) : Bool :=
  w.name == "NautilusToolbar" || w.name == "MenuBar"

/-- The climb `p = w.get_parent(); while not isinstance(p, Gtk.Paned):
p = p.get_parent()` (lines 161-163), on the ancestor list of `w`.  Running
past the root models the `AttributeError` raised by `None.get_parent()`. -/
def climbToPaned : List Widget → Except Unit Widget
  | [] => .error ()
  | p :: rest => if p.isPaned then .ok p else climbToPaned rest

/-- One iteration of the discovery loop (lines 158-168), updating the pair
(main_paned, menubar). -/
def scanStep (acc : Option Widget × Option Widget) (e : Widget × List Widget) :
    Except Unit (Option Widget × Option Widget) :=
  let mb := if e.1.name == "MenuBar" then some e.1 else acc.2
  if e.1.name == "NautilusToolbar" then
    match climbToPaned e.2 with
    | .error u => .error u
    | .ok p => .ok (some p, mb)
  else
    .ok (acc.1, mb)

/-- The whole discovery loop: a fold of `scanStep` over the walk; an
exception aborts the iteration. -/
def scanWindow (es : List (Widget × List Widget)) :
    Except Unit (Option Widget × Option Widget) :=
  es.foldlM scanStep (none, none)

/-- `WindowAgent.find_loc_entry` (lines 246-249): first widget named
`NautilusLocationEntry` in a full depth-first walk (submenus visited),
`none` when the loop falls through. -/
def find_loc_entry (o : Option Widget) : Option Widget :=
  (walkO true (fun _ => false) o).find? (fun w => w.name == "NautilusLocationEntry")

/-- `Gtk.Paned.get_child1` / `get_child2`, `None` when the pane is empty. -/
def getChild1 (w : Widget) : Option Widget := w.children[0]?

def getChild2 (w : Widget) : Option Widget := w.children[1]?

/-- The per-window handlers the agent can register with `connect`. -/
inductive HandlerTag where
  | onCopy
  | onMove
  | onMkdir
  | onDelete
  | onEdit
  | onTerminal
  | onGit
deriving DecidableEq

/-- The state of a `WindowAgent` after `__init__`: the located widgets and
the list of `connect(accel, func)` registrations in order.  (`activated`
records the `Show Hide Extra Pane` item activated at lines 172-176.) -/
structure AgentState where
  main_paned : Option Widget
  menubar : Option Widget
  activated : Option Widget
  loc_entry1 : Option Widget
  loc_entry2 : Option Widget
  connects : List (String × HandlerTag)
deriving DecidableEq

/-- One iteration of the registration loop over `walk(menubar)`
(lines 213-226); the `elif name == 'Edit'` branch only adds a menu entry
and registers no accelerator. -/
def menuScanStep (acc : List (String × HandlerTag)) (w : Widget) :
    List (String × HandlerTag) :=
  if w.name == "Copy to next pane" then acc ++ [("F5", HandlerTag.onCopy)]
  else if w.name == "Move to next pane" then acc ++ [("F6", HandlerTag.onMove)]
  else if w.name == "New Folder" then acc ++ [("F7", HandlerTag.onMkdir)]
  else if w.name == "Trash" then acc ++ [("F8", HandlerTag.onDelete)]
  else acc

def menuConnects (mb : Option Widget) : List (String × HandlerTag) :=
  match mb with
  | none => []
  | some m => (walkAll true m).foldl menuScanStep []

/-- The rest of `__init__` after the discovery loop, on its result pair
(main_paned, menubar): locate the two location entries (lines 180-185) and
perform the `connect` registrations (lines 198-226).  The condition
guarding the Ctrl+O / Ctrl+G registrations is line 206's
`self.loc_entry1 != None and self.loc_entry2 != None`. -/
def agentFromScan (r : Option Widget × Option Widget) : AgentState :=
  { main_paned := r.1
    menubar := r.2
    activated := r.2.bind
      (fun m => (walkAll true m).find? (fun w => w.name == "Show Hide Extra Pane"))
    loc_entry1 := r.1.bind (fun p => find_loc_entry (getChild1 p))
    loc_entry2 := r.1.bind (fun p => find_loc_entry (getChild2 p))
    connects :=
      [("F4", HandlerTag.onEdit)] ++
      (if (r.1.bind (fun p => find_loc_entry (getChild1 p))).isSome &&
          (r.1.bind (fun p => find_loc_entry (getChild2 p))).isSome then
        [("<Ctrl>O", HandlerTag.onTerminal), ("<Ctrl>G", HandlerTag.onGit)]
       else []) ++
      menuConnects r.2 }

/-- `WindowAgent.__init__` (lines 151-232), restricted to its observable
outcome: the located widgets and the accelerator registrations.  An
exception escaping the discovery loop (the parent climb) propagates out of
the constructor.  The `Gtk.AccelMap.change_entry` calls of lines 187-196
are unconditional constants and the `Keyboard Shortcuts` menu entry is
pure UI, so neither is recorded here. -/
def initAgent (window : Widget) : Except Unit AgentState :=
  (scanWindow (walkCtxW false skipLandmarks [] window)).map agentFromScan

/-! Embedding of the event handlers and `catch_all` (lines 92-97 and
272-330).  External collaborators (dialogs, menu-item activation,
`subprocess.Popen`, GConf, and the agent's own `get_selection` /
`get_location` helpers, which may themselves raise) are abstracted as
`Except`-valued fields of `Externals`; a `.error` models a raised Python
exception carrying its message. -/

def DIFF : String := "meld"

def GIT_CLIENT : String := "gitg"

def TERMINAL_KEY : String := "/desktop/gnome/applications/terminal/exec"

def EDITOR : String := "gedit"

/-- `catch_all` (lines 92-97): a bare `except:` that logs the exception and
suppresses it.  The result is the logged message, if any. -/
def catch_all (body : Except String Unit) : Option String :=
  match body with
  | .ok _ => none
  | .error e => some e

structure Externals where
  showDialog : String → String → Except String Bool
  activateCopy : Except String Unit
  activateMove : Except String Unit
  activateMkdir : Except String Unit
  activateDelete : Except String Unit
  getSelection : Except String (List String)
  getLocation : Except String String
  gconfGetString : String → Except String (Option String)
  popen : List String → Except String Unit
  popenCwd : List String → String → Except String Unit

def on_copy_body (env : Externals) : Except String Unit := do
  let ok ← env.showDialog "Copy" "Do you want to copy selected files/directories?"
  if ok then env.activateCopy else pure ()

def on_move_body (env : Externals) : Except String Unit := do
  let ok ← env.showDialog "Move" "Do you want to move selected files/directories?"
  if ok then env.activateMove else pure ()

def on_mkdir_body (env : Externals) : Except String Unit :=
  env.activateMkdir

def on_delete_body (env : Externals) : Except String Unit := do
  let ok ← env.showDialog "Delete"
    "Do you want to move selected files/directories to trash?"
  if ok then env.activateDelete else pure ()

def on_edit_body (env : Externals) : Except String Unit := do
  let selection ← env.getSelection
  env.popen (EDITOR :: selection)

def on_terminal_body (env : Externals) : Except String Unit := do
  let location ← env.getLocation
  let terminal ← env.gconfGetString TERMINAL_KEY
  match terminal with
  | none => Except.error "TypeError"
  | some t => env.popenCwd [t] location

def on_git_body (env : Externals) : Except String Unit := do
  let location ← env.getLocation
  env.popenCwd [GIT_CLIENT] location

-- Each handler runs its body under `catch_all` and then returns True
-- unconditionally (lines 272-330).  The result is (logged message, return
-- value delivered to the accelerator system).
def on_copy (env : Externals) : Option String × Bool := (catch_all (on_copy_body env), true)

def on_move (env : Externals) : Option String × Bool := (catch_all (on_move_body env), true)

def on_mkdir (env : Externals) : Option String × Bool := (catch_all (on_mkdir_body env), true)

def on_delete (env : Externals) : Option String × Bool := (catch_all (on_delete_body env), true)

def on_edit (env : Externals) : Option String × Bool := (catch_all (on_edit_body env), true)

def on_terminal (env : Externals) : Option String × Bool := (catch_all (on_terminal_body env), true)

def on_git (env : Externals) : Option String × Bool := (catch_all (on_git_body env), true)

/-! Embedding of `WindowAgent.get_selection` (lines 251-260). -/

/-- What the code reads off the focused widget: its `Gtk.TreeView` class
membership, its parent's name (`none` when `get_parent()` returns `None`),
and the URIs its selection would yield if it is a tree view. -/
structure FocusInfo where
  isTreeView : Bool
  parentName : Option String
  uris : List String
deriving DecidableEq

/-- `get_selection`, with a raised exception as `.error`.  The Python
condition is `not isinstance(focus, Gtk.TreeView) and
focus.get_parent().get_name() == 'NautilusListView'` — the `not` binds
only to the first conjunct.  A `None` focus or a non-tree-view focus that
fails the condition reaches an attribute access that raises. -/
def get_selection (focus : Option FocusInfo) : Except Unit (List String) :=
  match focus with
  | none => .error ()
  | some f =>
    if !f.isTreeView then
      match f.parentName with
      | none => .error ()
      | some n =>
        if n == "NautilusListView" then .ok []
        else .error ()
    else
      .ok f.uris

/-! Embedding of the keyboard-shortcuts dialog singleton
(`show_keyboard_shortcuts_dialog`, lines 332-342, and the global
`shortcuts_dialog`, line 147).  Dialog instances are identified by
allocation order; `run()` blocks until the dialog closes, so the close
event carries out the `destroy()` and the reset of the global. -/

inductive DlgEvent where
  | activate
  | close

structure DlgState where
  current : Option Nat
  nextId : Nat
  createdLog : List Nat
  presentedLog : List Nat
  destroyedLog : List Nat
deriving DecidableEq

def dlgStep (s : DlgState) : DlgEvent → DlgState
  | .activate =>
    match s.current with
    | some d => { s with presentedLog := s.presentedLog ++ [d] }
    | none =>
      { s with current := some s.nextId, nextId := s.nextId + 1,
               createdLog := s.createdLog ++ [s.nextId] }
  | .close =>
    match s.current with
    | some d => { s with current := none, destroyedLog := s.destroyedLog ++ [d] }
    | none => s

/-! Embedding of `WidgetProvider.get_widget` (lines 354-364) and the
`destroy` handler of line 361.  Windows are identified by numbers; the
`_window_agents` dict is an association list with unique keys; agents are
identified by allocation order. -/

structure ProviderState where
  agents : List (Nat × Nat)
  nextAgent : Nat
  destroyConnected : List Nat
deriving DecidableEq

def lookupWin (l : List (Nat × Nat)) (win : Nat) : Option Nat :=
  (l.find? (fun e => e.1 == win)).map Prod.snd

def get_widget (s : ProviderState) (uri : String) (win : Nat) : ProviderState :=
  if uri == "x-nautilus-desktop:///" then s
  else
    match lookupWin s.agents win with
    | some _ => s
    | none =>
      { agents := s.agents ++ [(win, s.nextAgent)],
        nextAgent := s.nextAgent + 1,
        destroyConnected := s.destroyConnected ++ [win] }

/-- The `destroy` handler `lambda w: self._window_agents.pop(w)`:
`dict.pop` with no default raises `KeyError` when the key is absent. -/
def on_destroy (s : ProviderState) (win : Nat) : Except Unit ProviderState :=
  match lookupWin s.agents win with
  | none => .error ()
  | some _ => .ok { s with agents := s.agents.filter (fun e => !(e.1 == win)) }

/-! Embedding of `CompareMenuProvider` (lines 366-378) with `get_filename`
and `has_file_scheme` (lines 85-89). -/

structure FileInfo where
  uri : String
  scheme : String
deriving DecidableEq

def has_file_scheme (f : FileInfo) : Bool := f.scheme == "file"

def hexDigitVal (c : Char) : Option Nat :=
  if '0' ≤ c ∧ c ≤ '9' then some (c.toNat - '0'.toNat)
  else if 'a' ≤ c ∧ c ≤ 'f' then some (c.toNat - 'a'.toNat + 10)
  else if 'A' ≤ c ∧ c ≤ 'F' then some (c.toNat - 'A'.toNat + 10)
  else none

/-- One percent-escaped fragment of Python 2's `urllib.unquote`: try to
read the first (up to) two characters as a hex byte, else put the `%`
back.  (The whitespace/sign tolerance of Python's `int(_, 16)` is not
modelled.) -/
def unquotePart (item : String) : String :=
  match item.toList with
  | c1 :: c2 :: rest =>
    match hexDigitVal c1, hexDigitVal c2 with
    | some h1, some h2 => String.mk (Char.ofNat (16 * h1 + h2) :: rest)
    | _, _ => "%" ++ item
  | [c1] =>
    match hexDigitVal c1 with
    | some h1 => String.mk [Char.ofNat h1]
    | none => "%" ++ item
  | [] => "%" ++ item

def unquote (s : String) : String :=
  match s.splitOn "%" with
  | [] => s
  | first :: rest => first ++ String.join (rest.map unquotePart)

/-- `get_filename` (lines 85-86): strip the 7-character `file://` prefix
and unquote. -/
def get_filename (f : FileInfo) : String := unquote (f.uri.drop 7)

structure NMenuItem where
  itemName : String
  label : String
  tip : String
  files : List FileInfo
deriving DecidableEq

/-- `CompareMenuProvider.on_compare` (lines 367-368): the command line
handed to `subprocess.Popen`; indexing an under-2 list raises. -/
def on_compare (files : List FileInfo) : Except Unit (List String) :=
  match files with
  | f0 :: f1 :: _ => .ok [DIFF, get_filename f0, get_filename f1]
  | _ => .error ()

/-- `CompareMenuProvider.get_file_items` (lines 370-378); Python's bare
`return` (no menu items) is the empty list. -/
def get_file_items (files : List FileInfo) : List NMenuItem :=
  if files.length ≠ 2 then []
  else
    match files with
    | [f0, f1] =>
      if !(has_file_scheme f0) || !(has_file_scheme f1) then []
      else
        [{ itemName := "SimpleMenuExtension::Compare_Files", label := "Compare...",
           tip := "Compare...", files := files }]
    | _ => []

/-! The accelerator table. -/

structure Binding where
  key : Nat
  mods : Nat
deriving DecidableEq

/-- Modelled from the spec: the accelerator table itself lives in the host
(`Gtk.AccelMap`), whose code is not part of this repository.  Per §4.3 the
table is a total map from action path to binding; `rebind(actionPath,
binding)` "atomically sets the binding for actionPath" (realized by
`Gtk.AccelMap.change_entry`), leaving every other path untouched. -/
def rebind (t : String → Binding) (a : String) (b : Binding) : String → Binding :=
  fun a2 => if a2 = a then b else t a2

/-- Modelled from the spec: `lookup(actionPath)` is a total function on the
table (§4.3). -/
def lookup (t : String → Binding) (a : String) : Binding := t a

/-- `KeyboardShortcutsDialog.accel_edited` (lines 124-126): rebind the
action path stored in row `i` and update that row's label.  An invalid
row index would raise (`.error`); `lbl` stands for
`Gtk.accelerator_get_label(key, mods)`. -/
def accel_edited (t : String → Binding) (store : List (String × String)) (i : Nat)
    (b : Binding) (lbl : String) :
    Except Unit ((String → Binding) × List (String × String)) :=
  match store[i]? with
  | none => .error ()
  | some e => .ok (rebind t e.1 b, store.set i (e.1, lbl))

/-! Concrete inputs used by the witnesses. -/

def wLeaf : Widget := .mk "D" false false false [] none

def wN : Widget := .mk "N" true false false [wLeaf] none

def wSib : Widget := .mk "S" false false false [] none

def wRoot : Widget := .mk "R" true false false [wN, wSib] none

def locEntryW : Widget := .mk "NautilusLocationEntry" false false false [] none

def toolbarW : Widget := .mk "NautilusToolbar" true false false [] none

def pane1W : Widget := .mk "pane1" true false false [toolbarW, locEntryW] none

def pane2W : Widget := .mk "pane2" true false false [] none

def panedW : Widget := .mk "paned" true false true [pane1W, pane2W] none

def windowW : Widget := .mk "window" true false false [panedW] none

def envBoom : Externals :=
  { showDialog := fun _ _ => .error "boom"
    activateCopy := .error "boom"
    activateMove := .error "boom"
    activateMkdir := .error "boom"
    activateDelete := .error "boom"
    getSelection := .error "boom"
    getLocation := .error "boom"
    gconfGetString := fun _ => .error "boom"
    popen := fun _ => .error "boom"
    popenCwd := fun _ _ => .error "boom" }

def badFocus : FocusInfo :=
  { isTreeView := false, parentName := some "NautilusToolbar", uris := [] }

/-! Basic facts about the traversal. -/

theorem walkW_eq (vs : Bool) (skip : Widget → Bool) (w : Widget) :
    walkW vs skip w = w ::
      (if skip w then []
       else
         (if w.isContainer then walkL vs skip w.children else []) ++
         (if vs && w.isMenuItem then walkO vs skip w.submenu else [])) := by
  cases w
  rfl

theorem walkL_eq_flatMap (vs : Bool) (skip : Widget → Bool) (ws : List Widget) :
    walkL vs skip ws = ws.flatMap (walkW vs skip) := by
  induction ws with
  | nil => rfl
  | cons w ws ih => simp [walkL, ih]

theorem walkO_eq (vs : Bool) (skip : Widget → Bool) (o : Option Widget) :
    walkO vs skip o = o.elim [] (walkW vs skip) := by
  cases o <;> rfl

theorem nodesW_eq (w : Widget) :
    nodesW w = w :: (nodesL w.children ++ nodesO w.submenu) := by
  cases w
  rfl

theorem nodesL_eq_flatMap (ws : List Widget) :
    nodesL ws = ws.flatMap nodesW := by
  induction ws with
  | nil => rfl
  | cons w ws ih => simp [nodesL, ih]

theorem nodesO_eq (o : Option Widget) :
    nodesO o = o.elim [] nodesW := by
  cases o <;> rfl

theorem sizeOf_lt_of_mem_children {w c : Widget} (h : c ∈ w.children) :
    sizeOf c < sizeOf w := by
  cases w with
  | mk n co m p cs s =>
    simp only [Widget.children] at h
    have := List.sizeOf_lt_of_mem h
    simp only [Widget.mk.sizeOf_spec]
    omega

theorem sizeOf_lt_of_submenu {w s : Widget} (h : w.submenu = some s) :
    sizeOf s < sizeOf w := by
  cases w with
  | mk n co m p cs so =>
    simp only [Widget.submenu] at h
    subst h
    simp only [Widget.mk.sizeOf_spec, Option.some.sizeOf_spec]
    omega

-- Induction over a widget tree: to prove `P w` one may assume `P` on all
-- children and on the submenu.
theorem widget_induct {P : Widget → Prop}
    (h : ∀ w : Widget, (∀ c ∈ w.children, P c) → (∀ s, w.submenu = some s → P s) → P w)
    (w : Widget) : P w := by
  have key : ∀ n (w : Widget), sizeOf w ≤ n → P w := by
    intro n
    induction n with
    | zero =>
      intro w hw
      cases w with
      | mk n co m p cs so => simp only [Widget.mk.sizeOf_spec] at hw; omega
    | succ n ih =>
      intro w hw
      refine h w (fun c hc => ih c ?_) (fun s hs => ih s ?_)
      · have := sizeOf_lt_of_mem_children hc
        omega
      · have := sizeOf_lt_of_submenu hs
        omega
  exact key (sizeOf w) w le_rfl

theorem walkAll_eq (vs : Bool) (w : Widget) :
    walkAll vs w = w ::
      ((if w.isContainer then w.children.flatMap (walkAll vs) else []) ++
       (if vs && w.isMenuItem then w.submenu.elim [] (walkAll vs) else [])) := by
  unfold walkAll
  rw [walkW_eq, walkL_eq_flatMap, walkO_eq]
  rfl

theorem mem_walkAll_iff (vs : Bool) (w x : Widget) :
    x ∈ walkAll vs w ↔ Reaches vs w x := by
  induction w using widget_induct with
  | h w ihc ihs =>
    rw [walkAll_eq]
    constructor
    · intro hx
      rcases List.mem_cons.1 hx with h | h
      · subst h
        exact Reaches.refl x
      · rcases List.mem_append.1 h with h | h
        · by_cases hcont : w.isContainer = true
          · simp only [hcont, if_true] at h
            obtain ⟨c, hc, hxc⟩ := List.mem_flatMap.1 h
            exact Reaches.child hcont hc ((ihc c hc).1 hxc)
          · simp only [hcont, if_false] at h
            exact absurd h (List.not_mem_nil x)
        · by_cases hmi : (vs && w.isMenuItem) = true
          · simp only [hmi, if_true] at h
            cases hsub : w.submenu with
            | none => rw [hsub] at h; exact absurd h (List.not_mem_nil x)
            | some s =>
              rw [hsub] at h
              exact Reaches.sub hmi hsub ((ihs s hsub).1 h)
          · simp only [hmi, if_false] at h
            exact absurd h (List.not_mem_nil x)
    · intro hx
      cases hx with
      | refl => exact List.mem_cons_self _ _
      | child hcont hc hr =>
        refine List.mem_cons_of_mem _ (List.mem_append_left _ ?_)
        rw [if_pos hcont]
        exact List.mem_flatMap.2 ⟨_, hc, (ihc _ hc).2 hr⟩
      | sub hmi hsub hr =>
        refine List.mem_cons_of_mem _ (List.mem_append_right _ ?_)
        rw [if_pos hmi, hsub]
        exact (ihs _ hsub).2 hr

theorem flatMap_sublist_flatMap {f g : Widget → List Widget} {l : List Widget}
    (h : ∀ a ∈ l, List.Sublist (f a) (g a)) :
    List.Sublist (l.flatMap f) (l.flatMap g) := by
  induction l with
  | nil => exact List.Sublist.refl _
  | cons a l ih =>
    simp only [List.flatMap_cons]
    exact (h a (List.mem_cons_self a l)).append
      (ih (fun b hb => h b (List.mem_cons_of_mem a hb)))

theorem walkW_sublist_nodesW (vs : Bool) (skip : Widget → Bool) (w : Widget) :
    List.Sublist (walkW vs skip w) (nodesW w) := by
  induction w using widget_induct with
  | h w ihc ihs =>
    rw [walkW_eq, nodesW_eq]
    refine List.Sublist.cons₂ w ?_
    by_cases hsk : skip w = true
    · simp only [hsk, if_true]
      exact List.nil_sublist _
    · simp only [hsk, if_false]
      refine List.Sublist.append ?_ ?_
      · rw [nodesL_eq_flatMap]
        by_cases hcont : w.isContainer = true
        · rw [if_pos hcont, walkL_eq_flatMap]
          exact flatMap_sublist_flatMap (fun c hc => ihc c hc)
        · rw [if_neg hcont]
          exact List.nil_sublist _
      · by_cases hmi : (vs && w.isMenuItem) = true
        · rw [if_pos hmi, walkO_eq, nodesO_eq]
          cases hsub : w.submenu with
          | none => exact List.Sublist.refl _
          | some s => exact ihs s hsub
        · rw [if_neg hmi]
          exact List.nil_sublist _

theorem nodup_walkW (vs : Bool) (skip : Widget → Bool) (w : Widget)
    (h : (nodesW w).Nodup) : (walkW vs skip w).Nodup :=
  (walkW_sublist_nodesW vs skip w).nodup h

theorem infix_append_left {l l₁ l₂ : List Widget} (h : l <:+: l₂) :
    l <:+: l₁ ++ l₂ := by
  obtain ⟨s, t, hst⟩ := h
  exact ⟨l₁ ++ s, t, by rw [← hst]; simp⟩

theorem infix_append_right {l l₁ l₂ : List Widget} (h : l <:+: l₁) :
    l <:+: l₁ ++ l₂ := by
  obtain ⟨s, t, hst⟩ := h
  exact ⟨s, t ++ l₂, by rw [← hst]; simp⟩

theorem infix_cons_of_infix {a : Widget} {l l₂ : List Widget} (h : l <:+: l₂) :
    l <:+: a :: l₂ := by
  obtain ⟨s, t, hst⟩ := h
  exact ⟨a :: s, t, by rw [← hst]; simp⟩

-- The walk of a reachable widget occurs contiguously inside the walk of the
-- root: the root's yield sequence visits whole subtrees, depth first.
theorem reaches_infix (vs : Bool) {w x : Widget} (h : Reaches vs w x) :
    walkAll vs x <:+: walkAll vs w := by
  induction h with
  | refl w => exact List.infix_refl _
  | @child w c x hcont hc _ ih =>
    refine ih.trans ?_
    rw [walkAll_eq vs w, if_pos hcont]
    exact infix_cons_of_infix (infix_append_right (List.infix_flatMap_of_mem hc _))
  | @sub w s x hmi hsub _ ih =>
    refine ih.trans ?_
    rw [walkAll_eq vs w, if_pos hmi, hsub]
    exact infix_cons_of_infix (infix_append_left (List.infix_refl _))

/-! Facts needed for the `skip_children` claim. -/

theorem reachesP_reaches {vs : Bool} {N w x : Widget} (h : ReachesP vs N w x) :
    Reaches vs w x := by
  induction h with
  | refl w => exact Reaches.refl w
  | child _ hcont hc _ ih => exact Reaches.child hcont hc ih
  | sub _ hmi hsub _ ih => exact Reaches.sub hmi hsub ih

theorem reaches_size {vs : Bool} {a b : Widget} (h : Reaches vs a b) :
    a = b ∨ sizeOf b < sizeOf a := by
  induction h with
  | refl w => exact Or.inl rfl
  | @child w c x _ hc _ ih =>
    right
    have h1 := sizeOf_lt_of_mem_children hc
    rcases ih with rfl | h2 <;> omega
  | @sub w s x _ hsub _ ih =>
    right
    have h1 := sizeOf_lt_of_submenu hsub
    rcases ih with rfl | h2 <;> omega

theorem mem_nodesW_self (w : Widget) : w ∈ nodesW w := by
  rw [nodesW_eq]
  exact List.mem_cons_self _ _

theorem nodesW_subset_of_reaches {vs : Bool} {a b : Widget} (h : Reaches vs a b) :
    ∀ y ∈ nodesW b, y ∈ nodesW a := by
  induction h with
  | refl w => exact fun y hy => hy
  | @child w c x _ hc _ ih =>
    intro y hy
    rw [nodesW_eq]
    refine List.mem_cons_of_mem _ (List.mem_append_left _ ?_)
    rw [nodesL_eq_flatMap]
    exact List.mem_flatMap.2 ⟨c, hc, ih y hy⟩
  | @sub w s x _ hsub _ ih =>
    intro y hy
    rw [nodesW_eq]
    refine List.mem_cons_of_mem _ (List.mem_append_right _ ?_)
    rw [nodesO_eq, hsub]
    exact ih y hy

theorem mem_nodesW_of_reaches {vs : Bool} {a b : Widget} (h : Reaches vs a b) :
    b ∈ nodesW a :=
  nodesW_subset_of_reaches h b (mem_nodesW_self b)

theorem reaches_cases {vs : Bool} {w x : Widget} (h : Reaches vs w x) :
    x = w ∨
    (∃ c, w.isContainer = true ∧ c ∈ w.children ∧ Reaches vs c x) ∨
    (∃ s, (vs && w.isMenuItem) = true ∧ w.submenu = some s ∧ Reaches vs s x) := by
  cases h with
  | refl => exact Or.inl rfl
  | child hcont hc hr => exact Or.inr (Or.inl ⟨_, hcont, hc, hr⟩)
  | sub hmi hsub hr => exact Or.inr (Or.inr ⟨_, hmi, hsub, hr⟩)

-- Decomposition of the distinct-objects hypothesis along the tree structure.

theorem nodup_blocks {w : Widget} (h : (nodesW w).Nodup) :
    (w.children.flatMap nodesW).Nodup ∧ (nodesO w.submenu).Nodup ∧
    List.Disjoint (w.children.flatMap nodesW) (nodesO w.submenu) := by
  rw [nodesW_eq, nodesL_eq_flatMap] at h
  have h2 := (List.nodup_cons.1 h).2
  exact List.nodup_append.1 h2

theorem nodup_nodesW_child {w c : Widget} (h : (nodesW w).Nodup)
    (hc : c ∈ w.children) : (nodesW c).Nodup :=
  ((List.nodup_flatMap.1 (nodup_blocks h).1).1) c hc

theorem nodup_nodesW_submenu {w s : Widget} (h : (nodesW w).Nodup)
    (hs : w.submenu = some s) : (nodesW s).Nodup := by
  have h2 := (nodup_blocks h).2.1
  rw [nodesO_eq, hs] at h2
  exact h2

theorem children_common_mem {w c c' x : Widget} (h : (nodesW w).Nodup)
    (hc : c ∈ w.children) (hc' : c' ∈ w.children)
    (hx : x ∈ nodesW c) (hx' : x ∈ nodesW c') : c = c' := by
  by_contra hne
  have hpw := (List.nodup_flatMap.1 (nodup_blocks h).1).2
  have hsymm : Symmetric (Function.onFun List.Disjoint (nodesW : Widget → List Widget)) :=
    fun a b hab => hab.symm
  exact (hpw.forall hsymm hc hc' hne) hx hx'

theorem child_submenu_disjoint {w c s x : Widget} (h : (nodesW w).Nodup)
    (hc : c ∈ w.children) (hs : w.submenu = some s)
    (hx : x ∈ nodesW c) (hx' : x ∈ nodesW s) : False := by
  have hd := (nodup_blocks h).2.2
  rw [nodesO_eq, hs] at hd
  exact hd (List.mem_flatMap.2 ⟨c, hc, hx⟩) hx'

-- If the walk skips the children of N, no proper descendant of N can still
-- be produced: with all tree nodes distinct, any skip-respecting path to
-- such a descendant would have to revisit N's subtree.
theorem skip_no_descendant_aux {vs : Bool} {N w x : Widget}
    (hp : ReachesP vs N w x) :
    (nodesW w).Nodup → Reaches vs w N → Reaches vs N x → x ≠ N → False := by
  induction hp with
  | refl w =>
    intro _ hwN hNx hxN
    rcases reaches_size hwN with rfl | h1
    · exact hxN rfl
    · rcases reaches_size hNx with h | h2
      · exact hxN h.symm
      · omega
  | @child w c x hne hcont hc hp ih =>
    intro hnd hwN hNx hxN
    have hxc : x ∈ nodesW c := mem_nodesW_of_reaches (reachesP_reaches hp)
    rcases reaches_cases hwN with h | ⟨c', _, hc', hcN⟩ | ⟨s, _, hsub, hsN⟩
    · exact hne h.symm
    · have hxc' : x ∈ nodesW c' :=
        nodesW_subset_of_reaches hcN x (mem_nodesW_of_reaches hNx)
      have hcc : c = c' := children_common_mem hnd hc hc' hxc hxc'
      exact ih (nodup_nodesW_child hnd hc) (hcc ▸ hcN) hNx hxN
    · have hxs : x ∈ nodesW s :=
        nodesW_subset_of_reaches hsN x (mem_nodesW_of_reaches hNx)
      exact child_submenu_disjoint hnd hc hsub hxc hxs
  | @sub w s x hne hmi hsub hp ih =>
    intro hnd hwN hNx hxN
    have hxs : x ∈ nodesW s := mem_nodesW_of_reaches (reachesP_reaches hp)
    rcases reaches_cases hwN with h | ⟨c', _, hc', hcN⟩ | ⟨s', _, hsub', hsN⟩
    · exact hne h.symm
    · have hxc' : x ∈ nodesW c' :=
        nodesW_subset_of_reaches hcN x (mem_nodesW_of_reaches hNx)
      exact child_submenu_disjoint hnd hc' hsub hxc' hxs
    · have hss : s' = s := by rw [hsub] at hsub'; exact (Option.some.inj hsub').symm
      exact ih (nodup_nodesW_submenu hnd hsub) (hss ▸ hsN) hNx hxN

theorem walkSkipOne_self (vs : Bool) (N : Widget) : walkSkipOne vs N N = [N] := by
  rw [walkSkipOne, walkW_eq]
  simp

theorem mem_walkSkipOne_iff (vs : Bool) (N : Widget) (w x : Widget) :
    x ∈ walkSkipOne vs N w ↔ ReachesP vs N w x := by
  induction w using widget_induct with
  | h w ihc ihs =>
    by_cases hwN : w = N
    · subst hwN
      rw [walkSkipOne_self]
      constructor
      · intro hx
        rcases List.mem_cons.1 hx with h | h
        · subst h; exact ReachesP.refl x
        · exact absurd h (List.not_mem_nil x)
      · intro hx
        cases hx with
        | refl => exact List.mem_cons_self _ _
        | child hne _ _ _ => exact absurd rfl hne
        | sub hne _ _ _ => exact absurd rfl hne
    · rw [walkSkipOne, walkW_eq]
      have hskip : decide (w = N) = false := by
        simp only [decide_eq_false_iff_not]
        exact hwN
      rw [hskip, if_neg (by simp)]
      constructor
      · intro hx
        rcases List.mem_cons.1 hx with h | h
        · subst h; exact ReachesP.refl x
        · rcases List.mem_append.1 h with h | h
          · by_cases hcont : w.isContainer = true
            · rw [if_pos hcont, walkL_eq_flatMap] at h
              obtain ⟨c, hc, hxc⟩ := List.mem_flatMap.1 h
              exact ReachesP.child hwN hcont hc ((ihc c hc).1 hxc)
            · rw [if_neg hcont] at h
              exact absurd h (List.not_mem_nil x)
          · by_cases hmi : (vs && w.isMenuItem) = true
            · rw [if_pos hmi, walkO_eq] at h
              cases hsub : w.submenu with
              | none => rw [hsub] at h; exact absurd h (List.not_mem_nil x)
              | some s =>
                rw [hsub] at h
                exact ReachesP.sub hwN hmi hsub ((ihs s hsub).1 h)
            · rw [if_neg hmi] at h
              exact absurd h (List.not_mem_nil x)
      · intro hx
        cases hx with
        | refl => exact List.mem_cons_self _ _
        | child _ hcont hc hr =>
          refine List.mem_cons_of_mem _ (List.mem_append_left _ ?_)
          rw [if_pos hcont, walkL_eq_flatMap]
          exact List.mem_flatMap.2 ⟨_, hc, ((ihc _ hc).2 hr)⟩
        | sub _ hmi hsub hr =>
          refine List.mem_cons_of_mem _ (List.mem_append_right _ ?_)
          rw [if_pos hmi, walkO_eq, hsub]
          exact (ihs _ hsub).2 hr

theorem flatMap_congr {f g : Widget → List Widget} {l : List Widget}
    (h : ∀ a ∈ l, f a = g a) : l.flatMap f = l.flatMap g := by
  induction l with
  | nil => rfl
  | cons a l ih =>
    simp only [List.flatMap_cons]
    rw [h a (List.mem_cons_self a l), ih (fun b hb => h b (List.mem_cons_of_mem a hb))]

-- Subtrees that do not contain N are walked in full: the skip applies to
-- the single yield of N only.
theorem walkSkipOne_eq_walkAll_of_avoid {vs : Bool} {N : Widget} :
    ∀ y : Widget, ¬ Reaches vs y N → walkSkipOne vs N y = walkAll vs y := by
  intro y
  induction y using widget_induct with
  | h y ihc ihs =>
    intro hy
    have hyN : ¬ y = N := fun h => hy (h ▸ Reaches.refl y)
    rw [walkSkipOne, walkAll, walkW_eq, walkW_eq]
    have hskip : decide (y = N) = false := by
      simp only [decide_eq_false_iff_not]
      exact hyN
    rw [hskip, if_neg (show ¬ false = true by simp), if_neg (show ¬ false = true by simp)]
    congr 2
    · by_cases hcont : y.isContainer = true
      · rw [if_pos hcont, if_pos hcont, walkL_eq_flatMap, walkL_eq_flatMap]
        refine flatMap_congr (fun c hc => ?_)
        have : ¬ Reaches vs c N := fun hr => hy (Reaches.child hcont hc hr)
        exact ihc c hc this
      · rw [if_neg hcont, if_neg hcont]
    · by_cases hmi : (vs && y.isMenuItem) = true
      · rw [if_pos hmi, if_pos hmi, walkO_eq, walkO_eq]
        cases hsub : y.submenu with
        | none => rfl
        | some s =>
          have : ¬ Reaches vs s N := fun hr => hy (Reaches.sub hmi hsub hr)
          exact ihs s hsub this
      · rw [if_neg hmi, if_neg hmi]

/-! Relating the context-carrying walk to the plain walk. -/

theorem walkCtxL_map_fst {vs : Bool} {skip : Widget → Bool} (cs : List Widget)
    (h : ∀ c ∈ cs, ∀ anc, (walkCtxW vs skip anc c).map Prod.fst = walkW vs skip c) :
    ∀ anc, (walkCtxL vs skip anc cs).map Prod.fst = walkL vs skip cs := by
  induction cs with
  | nil => intro anc; rfl
  | cons c cs ih =>
    intro anc
    simp only [walkCtxL, walkL, List.map_append]
    rw [h c (List.mem_cons_self c cs) anc,
        ih (fun b hb anc2 => h b (List.mem_cons_of_mem c hb) anc2) anc]

theorem walkCtxW_map_fst (vs : Bool) (skip : Widget → Bool) (w : Widget) :
    ∀ anc, (walkCtxW vs skip anc w).map Prod.fst = walkW vs skip w := by
  induction w using widget_induct with
  | h w ihc ihs =>
    intro anc
    cases w with
    | mk n c m p cs sub =>
      simp only [walkCtxW, walkW, List.map_cons]
      congr 1
      by_cases hsk : skip (Widget.mk n c m p cs sub) = true
      · rw [if_pos hsk, if_pos hsk]
        rfl
      · rw [if_neg hsk, if_neg hsk, List.map_append]
        congr 1
        · by_cases hc : c = true
          · rw [if_pos hc, if_pos hc]
            exact walkCtxL_map_fst cs (fun b hb anc2 => ihc b hb anc2) _
          · rw [if_neg hc, if_neg hc]
            rfl
        · by_cases hm : (vs && m) = true
          · rw [if_pos hm, if_pos hm]
            cases sub with
            | none => rfl
            | some s => exact ihs s rfl _
          · rw [if_neg hm, if_neg hm]
            rfl

theorem scanWindow_no_toolbar : ∀ (es : List (Widget × List Widget)),
    (∀ e ∈ es, ¬ e.1.name = "NautilusToolbar") →
    ∀ mb, ((es.foldlM scanStep (none, mb)).map Prod.fst :
              Except Unit (Option Widget)) = Except.ok none := by
  intro es
  induction es with
  | nil =>
    intro _ mb
    rfl
  | cons e es ih =>
    intro h mb
    have he : (e.1.name == "NautilusToolbar") = false := by
      simpa using h e (List.mem_cons_self e es)
    rw [List.foldlM_cons]
    have hstep : scanStep (none, mb) e =
        Except.ok (none, if e.1.name == "MenuBar" then some e.1 else mb) := by
      simp [scanStep, he]
    rw [hstep]
    exact ih (fun b hb => h b (List.mem_cons_of_mem e hb)) _

/-- Claim C1: for every acyclic widget tree (all widget objects distinct)
rooted at a non-null node, one full iteration of `walk` yields exactly the
reachable nodes, each exactly once, in depth-first pre-order: every
reachable node's own subtree sequence starts with that node, continues
with its children's subtrees in order, and ends with its submenu's subtree
only when the visit-submenu flag is set and the node is a menu item, the
whole subtree sequence sitting contiguously inside the full iteration. -/
theorem treewalker_preorder_exactly_once (vs : Bool) (w : Widget)
    (hnd : (nodesW w).Nodup) :
    (∀ x, x ∈ walkAll vs w ↔ Reaches vs w x) ∧
    (walkAll vs w).Nodup ∧
    (∀ x, Reaches vs w x →
      walkAll vs x = x ::
        ((if x.isContainer then x.children.flatMap (walkAll vs) else []) ++
         (if vs && x.isMenuItem then x.submenu.elim [] (walkAll vs) else [])) ∧
      walkAll vs x <:+: walkAll vs w) :=
  ⟨fun x => mem_walkAll_iff vs w x,
   nodup_walkW vs (fun _ => false) w hnd,
   fun x hx => ⟨walkAll_eq vs x, reaches_infix vs hx⟩⟩

/-- Witness for C1 at a concrete two-level tree. -/
theorem treewalker_preorder_exactly_once_witness :
    (nodesW wRoot).Nodup ∧ (walkAll true wRoot).Nodup :=
  ⟨by decide, (treewalker_preorder_exactly_once true wRoot (by decide)).2.1⟩

/-- Claim C2: if the consumer calls `skip_children` right after node `N` is
yielded (and only there), the walk yields exactly the nodes reachable
without descending below `N`: `N` itself is still yielded with nothing of
its subtree after it, no proper descendant of `N` appears, and every
subtree not containing `N` is walked exactly as in the unskipped walk. -/
theorem treewalker_skip_children (vs : Bool) (w N : Widget)
    (hnd : (nodesW w).Nodup) (hN : Reaches vs w N) :
    (∀ x, x ∈ walkSkipOne vs N w ↔ ReachesP vs N w x) ∧
    walkSkipOne vs N N = [N] ∧
    (∀ x, Reaches vs N x → x ≠ N → x ∉ walkSkipOne vs N w) ∧
    (∀ y, ¬ Reaches vs y N → walkSkipOne vs N y = walkAll vs y) :=
  ⟨fun x => mem_walkSkipOne_iff vs N w x,
   walkSkipOne_self vs N,
   fun x hNx hxN hmem =>
     skip_no_descendant_aux ((mem_walkSkipOne_iff vs N w x).1 hmem) hnd hN hNx hxN,
   fun y hy => walkSkipOne_eq_walkAll_of_avoid y hy⟩

/-- Witness for C2: skipping at `wN` suppresses its child `wLeaf` but not
its sibling `wSib`. -/
theorem treewalker_skip_children_witness :
    wLeaf ∉ walkSkipOne true wN wRoot ∧ wSib ∈ walkSkipOne true wN wRoot :=
  ⟨(treewalker_skip_children true wRoot wN (by decide)
      (Reaches.child (by decide) (by decide) (Reaches.refl wN))).2.2.1 wLeaf
      (Reaches.child (by decide) (by decide) (Reaches.refl wLeaf)) (by decide),
   by decide⟩

/-- Claim C3: on trees containing no node with the searched name, both
discovery modes report not-found without raising: `find_loc_entry` returns
`None`, and the toolbar scan completes (no exception) with no main paned
recorded. -/
theorem locator_not_found (root window : Widget)
    (h1 : ∀ x ∈ nodesW root, ¬ x.name = "NautilusLocationEntry")
    (h2 : ∀ x ∈ nodesW window, ¬ x.name = "NautilusToolbar") :
    find_loc_entry (some root) = none ∧
    ((scanWindow (walkCtxW false skipLandmarks [] window)).map Prod.fst :
        Except Unit (Option Widget)) = Except.ok none := by
  constructor
  · apply List.find?_eq_none.2
    intro x hx
    have hxn : x ∈ nodesW root :=
      (walkW_sublist_nodesW true (fun _ => false) root).subset hx
    simpa using h1 x hxn
  · rw [scanWindow]
    apply scanWindow_no_toolbar
    intro e he
    have hfst : e.1 ∈ walkW false skipLandmarks window := by
      rw [← walkCtxW_map_fst false skipLandmarks window []]
      exact List.mem_map_of_mem Prod.fst he
    exact h2 e.1 ((walkW_sublist_nodesW false skipLandmarks window).subset hfst)

/-- Witness for C3 at a concrete tree containing neither searched name. -/
theorem locator_not_found_witness :
    find_loc_entry (some wRoot) = none ∧
    ((scanWindow (walkCtxW false skipLandmarks [] wRoot)).map Prod.fst :
        Except Unit (Option Widget)) = Except.ok none :=
  locator_not_found wRoot wRoot (by decide) (by decide)

/-- Claim C4: after `rebind(A, B)` (realized by `Gtk.AccelMap.change_entry`
on A's accel path), `lookup(A)` returns `B`; the rebind overrides whatever
binding `A` held before, with no separate unbind; and the dialog's
`accel_edited` realization rebinding row `i`'s action path has the same
effect on that path. -/
theorem accel_rebind_lookup (t : String → Binding) (A : String) (B old : Binding) :
    lookup (rebind t A B) A = B ∧
    lookup (rebind (rebind t A old) A B) A = B ∧
    (∀ store i p l lbl r, store[i]? = some (p, l) →
      accel_edited t store i B lbl = Except.ok r → lookup r.1 p = B) := by
  refine ⟨by simp [lookup, rebind], by simp [lookup, rebind], ?_⟩
  intro store i p l lbl r hs hr
  simp only [accel_edited, hs, Except.ok.injEq] at hr
  rw [← hr]
  simp [lookup, rebind]

def table0 : String → Binding := fun _ => { key := 0, mods := 0 }

/-- Witness for C4 on a concrete table, path and row. -/
theorem accel_rebind_lookup_witness :
    lookup (rebind table0 "<Actions>/DirViewActions/Open" { key := 70, mods := 0 })
      "<Actions>/DirViewActions/Open" = { key := 70, mods := 0 } ∧
    lookup (rebind table0 "<Actions>/DirViewActions/Open" { key := 70, mods := 0 },
        [("<Actions>/DirViewActions/Open", "F3")]).1
      "<Actions>/DirViewActions/Open" = { key := 70, mods := 0 } :=
  ⟨(accel_rebind_lookup table0 "<Actions>/DirViewActions/Open"
      { key := 70, mods := 0 } { key := 79, mods := 4 }).1,
   (accel_rebind_lookup table0 "<Actions>/DirViewActions/Open"
      { key := 70, mods := 0 } { key := 79, mods := 4 }).2.2
      [("<Actions>/DirViewActions/Open", "Ctrl+O")] 0
      "<Actions>/DirViewActions/Open" "Ctrl+O" "F3"
      (rebind table0 "<Actions>/DirViewActions/Open" { key := 70, mods := 0 },
        [("<Actions>/DirViewActions/Open", "F3")]) rfl rfl⟩

/-- Claim C6: every installed shortcut handler runs its body inside
`catch_all`, so it returns `True` on every input state, and when the body
raises, the exception is caught at the boundary and logged instead of
escaping. -/
theorem handlers_catch_and_return_true (env : Externals) :
    ((on_copy env).2 = true ∧ (on_move env).2 = true ∧ (on_mkdir env).2 = true ∧
     (on_delete env).2 = true ∧ (on_edit env).2 = true ∧
     (on_terminal env).2 = true ∧ (on_git env).2 = true) ∧
    (∀ e, on_copy_body env = Except.error e → (on_copy env).1 = some e) ∧
    (∀ e, on_move_body env = Except.error e → (on_move env).1 = some e) ∧
    (∀ e, on_mkdir_body env = Except.error e → (on_mkdir env).1 = some e) ∧
    (∀ e, on_delete_body env = Except.error e → (on_delete env).1 = some e) ∧
    (∀ e, on_edit_body env = Except.error e → (on_edit env).1 = some e) ∧
    (∀ e, on_terminal_body env = Except.error e → (on_terminal env).1 = some e) ∧
    (∀ e, on_git_body env = Except.error e → (on_git env).1 = some e) := by
  refine ⟨⟨rfl, rfl, rfl, rfl, rfl, rfl, rfl⟩, ?_, ?_, ?_, ?_, ?_, ?_, ?_⟩
  all_goals
    intro e he
    simp [on_copy, on_move, on_mkdir, on_delete, on_edit, on_terminal, on_git,
      catch_all, he]

/-- Witness for C6 on an environment whose every external call raises. -/
theorem handlers_catch_and_return_true_witness :
    (on_terminal envBoom).2 = true ∧ (on_terminal envBoom).1 = some "boom" :=
  ⟨(handlers_catch_and_return_true envBoom).1.2.2.2.2.2.1,
   (handlers_catch_and_return_true envBoom).2.2.2.2.2.2.1 "boom" rfl⟩

/-- Claim C7 is refuted by the code: `badFocus` is not a tree view and its
parent is not named `NautilusListView`, so per the claim `get_selection`
should return the empty selection without failing, but the mis-parenthesized
condition `not isinstance(focus, Gtk.TreeView) and
focus.get_parent().get_name() == 'NautilusListView'` falls through and
`focus.get_selection()` raises `AttributeError`. -/
theorem get_selection_raises_on_non_treeview :
    badFocus.isTreeView = false ∧
    badFocus.parentName = some "NautilusToolbar" ∧
    get_selection (some badFocus) = Except.error () :=
  ⟨rfl, rfl, rfl⟩

/-- Claim C8: the shortcut-editor dialog is a singleton: activating while
one is open re-presents the identity-equal existing instance and
constructs nothing; closing destroys it and clears the global reference;
the next activation then constructs a fresh instance. -/
theorem shortcuts_dialog_singleton (s : DlgState) (d : Nat) (h : s.current = some d) :
    (dlgStep s .activate).current = some d ∧
    (dlgStep s .activate).createdLog = s.createdLog ∧
    (dlgStep s .activate).presentedLog = s.presentedLog ++ [d] ∧
    (dlgStep s .close).current = none ∧
    (dlgStep s .close).destroyedLog = s.destroyedLog ++ [d] ∧
    (dlgStep (dlgStep s .close) .activate).current = some s.nextId ∧
    (dlgStep (dlgStep s .close) .activate).createdLog = s.createdLog ++ [s.nextId] := by
  simp [dlgStep, h]

def dlgS0 : DlgState :=
  { current := some 0, nextId := 1, createdLog := [0], presentedLog := [],
    destroyedLog := [] }

/-- Witness for C8 on a state with dialog 0 open. -/
theorem shortcuts_dialog_singleton_witness :
    (dlgStep dlgS0 .activate).current = some 0 ∧
    (dlgStep dlgS0 .activate).createdLog = [0] ∧
    (dlgStep (dlgStep dlgS0 .close) .activate).createdLog = [0, 1] :=
  ⟨(shortcuts_dialog_singleton dlgS0 0 rfl).1,
   (shortcuts_dialog_singleton dlgS0 0 rfl).2.1,
   (shortcuts_dialog_singleton dlgS0 0 rfl).2.2.2.2.2.2⟩

/-! The registration loop over the menu bar can only register the four
menu-item handlers. -/

theorem menuScanStep_mem {acc : List (String × HandlerTag)} {w : Widget}
    {x : String × HandlerTag} (hx : x ∈ menuScanStep acc w) :
    x ∈ acc ∨ x.2 = HandlerTag.onCopy ∨ x.2 = HandlerTag.onMove ∨
      x.2 = HandlerTag.onMkdir ∨ x.2 = HandlerTag.onDelete := by
  unfold menuScanStep at hx
  split_ifs at hx
  · rcases List.mem_append.1 hx with h | h
    · exact Or.inl h
    · have hxe := List.mem_singleton.1 h
      subst hxe
      simp
  · rcases List.mem_append.1 hx with h | h
    · exact Or.inl h
    · have hxe := List.mem_singleton.1 h
      subst hxe
      simp
  · rcases List.mem_append.1 hx with h | h
    · exact Or.inl h
    · have hxe := List.mem_singleton.1 h
      subst hxe
      simp
  · rcases List.mem_append.1 hx with h | h
    · exact Or.inl h
    · have hxe := List.mem_singleton.1 h
      subst hxe
      simp
  · exact Or.inl hx

theorem menuConnects_tags {mb : Option Widget} {x : String × HandlerTag}
    (hx : x ∈ menuConnects mb) :
    x.2 = HandlerTag.onCopy ∨ x.2 = HandlerTag.onMove ∨
    x.2 = HandlerTag.onMkdir ∨ x.2 = HandlerTag.onDelete := by
  cases mb with
  | none => exact absurd hx (List.not_mem_nil x)
  | some m =>
    have key : ∀ (ws : List Widget) (acc : List (String × HandlerTag)),
        x ∈ ws.foldl menuScanStep acc → x ∈ acc ∨
          (x.2 = HandlerTag.onCopy ∨ x.2 = HandlerTag.onMove ∨
           x.2 = HandlerTag.onMkdir ∨ x.2 = HandlerTag.onDelete) := by
      intro ws
      induction ws with
      | nil => exact fun acc h => Or.inl h
      | cons wgt ws ih =>
        intro acc h
        rw [List.foldl_cons] at h
        rcases ih (menuScanStep acc wgt) h with h0 | h0
        · exact menuScanStep_mem h0
        · exact Or.inr h0
    rcases key (walkAll true m) [] hx with h0 | h0
    · exact absurd h0 (List.not_mem_nil x)
    · exact h0

/-- Claim C5: whenever `WindowAgent.__init__` completes, the open-terminal
(Ctrl+O) and vcs-client (Ctrl+G) handlers are registered if and only if
both location entries were discovered, while the edit handler (F4) is
registered unconditionally. -/
theorem remapper_conditional_registration (window : Widget) (st : AgentState)
    (h : initAgent window = Except.ok st) :
    (("<Ctrl>O", HandlerTag.onTerminal) ∈ st.connects ↔
      st.loc_entry1.isSome = true ∧ st.loc_entry2.isSome = true) ∧
    (("<Ctrl>G", HandlerTag.onGit) ∈ st.connects ↔
      st.loc_entry1.isSome = true ∧ st.loc_entry2.isSome = true) ∧
    ("F4", HandlerTag.onEdit) ∈ st.connects := by
  rw [initAgent] at h
  cases hscan : scanWindow (walkCtxW false skipLandmarks [] window) with
  | error u =>
    rw [hscan] at h
    exact absurd h (by simp [Except.map])
  | ok r =>
    rw [hscan] at h
    have hst : agentFromScan r = st := by
      simpa [Except.map] using h
    subst hst
    simp only [agentFromScan]
    by_cases hcond : ((r.1.bind (fun p => find_loc_entry (getChild1 p))).isSome &&
        (r.1.bind (fun p => find_loc_entry (getChild2 p))).isSome) = true
    · rw [if_pos hcond]
      obtain ⟨h1, h2⟩ := Bool.and_eq_true_iff.1 hcond
      refine ⟨⟨fun _ => ⟨h1, h2⟩, fun _ => by simp⟩,
              ⟨fun _ => ⟨h1, h2⟩, fun _ => by simp⟩, by simp⟩
    · rw [if_neg hcond]
      have hno : ¬ ((r.1.bind (fun p => find_loc_entry (getChild1 p))).isSome = true ∧
          (r.1.bind (fun p => find_loc_entry (getChild2 p))).isSome = true) := by
        intro hand
        exact hcond (by simp [hand.1, hand.2])
      refine ⟨⟨fun hmem => ?_, fun hand => absurd hand hno⟩,
              ⟨fun hmem => ?_, fun hand => absurd hand hno⟩, by simp⟩
      · rcases List.mem_append.1 hmem with hm | hm
        · simp at hm
        · rcases menuConnects_tags hm with h0 | h0 | h0 | h0 <;> simp at h0
      · rcases List.mem_append.1 hmem with hm | hm
        · simp at hm
        · rcases menuConnects_tags hm with h0 | h0 | h0 | h0 <;> simp at h0

def agentStW : AgentState :=
  { main_paned := some panedW, menubar := none, activated := none,
    loc_entry1 := some locEntryW, loc_entry2 := none,
    connects := [("F4", HandlerTag.onEdit)] }

/-- Witness for C5: a window whose second pane has no location entry still
initializes, registers F4, and registers no terminal shortcut. -/
theorem remapper_conditional_registration_witness :
    initAgent windowW = Except.ok agentStW ∧
    ("F4", HandlerTag.onEdit) ∈ agentStW.connects ∧
    (("<Ctrl>O", HandlerTag.onTerminal) ∈ agentStW.connects ↔
      agentStW.loc_entry1.isSome = true ∧ agentStW.loc_entry2.isSome = true) :=
  ⟨rfl,
   (remapper_conditional_registration windowW agentStW rfl).2.2,
   (remapper_conditional_registration windowW agentStW rfl).1⟩

/-- Claim C9: `get_file_items` returns the `Compare...` item exactly when
two file-scheme items are selected, and activating it launches the diff
tool on the two resolved local paths in selection order. -/
theorem compare_menu_items (files : List FileInfo) :
    (get_file_items files ≠ [] ↔
      ∃ f0 f1, files = [f0, f1] ∧ has_file_scheme f0 = true ∧
        has_file_scheme f1 = true) ∧
    (∀ f0 f1, files = [f0, f1] → has_file_scheme f0 = true →
      has_file_scheme f1 = true →
      get_file_items files =
        [{ itemName := "SimpleMenuExtension::Compare_Files", label := "Compare...",
           tip := "Compare...", files := files }] ∧
      on_compare files = Except.ok [DIFF, get_filename f0, get_filename f1]) := by
  rcases files with _ | ⟨f0, _ | ⟨f1, _ | ⟨f2, rest⟩⟩⟩
  · refine ⟨by simp [get_file_items], fun a b h => List.noConfusion h⟩
  · refine ⟨by simp [get_file_items], fun a b h => ?_⟩
    simp at h
  · constructor
    · cases h0 : has_file_scheme f0 with
      | false =>
        constructor
        · intro hne
          exact absurd (by simp [get_file_items, h0]) hne
        · rintro ⟨a, b, heq, ha, hb⟩
          obtain ⟨rfl, rfl⟩ : f0 = a ∧ f1 = b := by simpa using heq
          simp [h0] at ha
      | true =>
        cases h1 : has_file_scheme f1 with
        | false =>
          constructor
          · intro hne
            exact absurd (by simp [get_file_items, h0, h1]) hne
          · rintro ⟨a, b, heq, ha, hb⟩
            obtain ⟨rfl, rfl⟩ : f0 = a ∧ f1 = b := by simpa using heq
            simp [h1] at hb
        | true =>
          refine ⟨fun _ => ⟨f0, f1, rfl, h0, h1⟩, fun _ => ?_⟩
          simp [get_file_items, h0, h1]
    · intro a b heq ha hb
      obtain ⟨rfl, rfl⟩ : a = f0 ∧ b = f1 := by
        have := heq.symm
        simpa using this
      exact ⟨by simp [get_file_items, ha, hb], rfl⟩
  · have hlen : (f0 :: f1 :: f2 :: rest).length ≠ 2 := by
      simp only [List.length_cons]
      omega
    constructor
    · constructor
      · intro hne
        refine absurd ?_ hne
        rw [get_file_items]
        · rw [if_pos hlen]
        · intro a b h
          simp at h
      · rintro ⟨a, b, heq, _, _⟩
        simp at heq
    · intro a b heq ha hb
      simp at heq

def fileA : FileInfo := { uri := "file:///home/a/x", scheme := "file" }

def fileB : FileInfo := { uri := "file:///home/b/y", scheme := "file" }

/-- Witness for C9 on two concrete file-scheme selections. -/
theorem compare_menu_items_witness :
    get_file_items [fileA, fileB] ≠ [] ∧
    on_compare [fileA, fileB] = Except.ok [DIFF, get_filename fileA, get_filename fileB] :=
  ⟨(compare_menu_items [fileA, fileB]).1.mpr ⟨fileA, fileB, rfl, rfl, rfl⟩,
   ((compare_menu_items [fileA, fileB]).2 fileA fileB rfl rfl rfl).2⟩

/-- Claim C10: the per-window registry holds at most one agent per window:
`get_widget` leaves the registry unchanged for the desktop URI and for a
window that already has an agent, stores a new agent keyed by the window
otherwise, keeps the keys duplicate-free, and the destroy handler removes
exactly the window's entry. -/
theorem window_registry_unique (s : ProviderState) (uri : String) (win : Nat) :
    get_widget s "x-nautilus-desktop:///" win = s ∧
    (∀ a, lookupWin s.agents win = some a → get_widget s uri win = s) ∧
    (lookupWin s.agents win = none → ¬ uri = "x-nautilus-desktop:///" →
      lookupWin (get_widget s uri win).agents win = some s.nextAgent) ∧
    ((s.agents.map Prod.fst).Nodup →
      ((get_widget s uri win).agents.map Prod.fst).Nodup) ∧
    (∀ a, lookupWin s.agents win = some a →
      on_destroy s win =
        Except.ok { s with agents := s.agents.filter (fun e => !(e.1 == win)) } ∧
      lookupWin (s.agents.filter (fun e => !(e.1 == win))) win = none) := by
  refine ⟨by simp [get_widget], ?_, ?_, ?_, ?_⟩
  · intro a ha
    by_cases hu : (uri == "x-nautilus-desktop:///") = true
    · simp [get_widget, hu]
    · simp [get_widget, hu, ha]
  · intro hnone hu
    have hub : (uri == "x-nautilus-desktop:///") = false := by
      simp only [beq_eq_false_iff_ne, ne_eq]
      exact hu
    have hf : s.agents.find? (fun e => e.1 == win) = none := by
      cases hfind : s.agents.find? (fun e => e.1 == win) with
      | none => rfl
      | some e =>
        rw [lookupWin, hfind] at hnone
        simp at hnone
    simp only [get_widget, hub, Bool.false_eq_true, if_false, hnone]
    rw [lookupWin, List.find?_append, hf]
    simp
  · intro hnd
    by_cases hu : (uri == "x-nautilus-desktop:///") = true
    · simpa [get_widget, hu] using hnd
    · cases hlook : lookupWin s.agents win with
      | some a => simpa [get_widget, hu, hlook] using hnd
      | none =>
        have hf : s.agents.find? (fun e => e.1 == win) = none := by
          cases hfind : s.agents.find? (fun e => e.1 == win) with
          | none => rfl
          | some e =>
            rw [lookupWin, hfind] at hlook
            simp at hlook
        have hwin : win ∉ s.agents.map Prod.fst := by
          intro hmem
          obtain ⟨e, he, hefst⟩ := List.mem_map.1 hmem
          have := List.find?_eq_none.1 hf e he
          simp [hefst] at this
        simp only [get_widget, hu, Bool.false_eq_true, if_false, hlook,
          List.map_append, List.map_cons, List.map_nil]
        rw [List.nodup_append]
        refine ⟨hnd, List.nodup_singleton _, ?_⟩
        intro x hx hx2
        rw [List.mem_singleton.1 hx2] at hx
        exact hwin hx
  · intro a ha
    refine ⟨by simp [on_destroy, ha], ?_⟩
    rw [lookupWin]
    have : (s.agents.filter (fun e => !(e.1 == win))).find?
        (fun e => e.1 == win) = none := by
      apply List.find?_eq_none.2
      intro e he
      have := (List.mem_filter.1 he).2
      simp at this
      simp [this]
    rw [this]
    rfl

def provS : ProviderState :=
  { agents := [(5, 7)], nextAgent := 8, destroyConnected := [5] }

/-- Witness for C10 on a concrete registry holding an agent for window 5. -/
theorem window_registry_unique_witness :
    get_widget provS "x-nautilus-desktop:///" 3 = provS ∧
    get_widget provS "file:///home/a" 5 = provS ∧
    lookupWin (get_widget provS "file:///home/a" 3).agents 3 = some 8 ∧
    ((get_widget provS "file:///home/a" 3).agents.map Prod.fst).Nodup ∧
    lookupWin (provS.agents.filter (fun e => !(e.1 == 5))) 5 = none :=
  ⟨(window_registry_unique provS "file:///home/a" 3).1,
   (window_registry_unique provS "file:///home/a" 5).2.1 7 rfl,
   (window_registry_unique provS "file:///home/a" 3).2.2.1 rfl (by decide),
   (window_registry_unique provS "file:///home/a" 3).2.2.2.1 (by decide),
   ((window_registry_unique provS "file:///home/a" 5).2.2.2.2 7 rfl).2⟩
